import Mathlib

/-!
Formal model of the batch image optimizer in src/images/optimize_images.py.

The script walks a folder tree, converts JPG/PNG/BMP/TIFF/GIF images to
WebP, optionally resizing, stripping metadata, backing up and deleting the
originals.  The model below embeds the script's data and control flow:

- the filesystem is a snapshot association list from paths to byte strings;
- the external image library (Pillow) is abstracted by a decode oracle
  (Image.open) and an encode oracle (Image.save); both may fail, which in
  the script raises an exception caught inside optimize_image;
- each per-file run of optimize_image is recorded as an event trace so
  that ordering and frame conditions can be stated;
- rational arithmetic stands in for Python float arithmetic in the resize
  scale computation.
-/

/-- Byte string: a file's contents, one natural number per byte. -/
abbrev Bytes := List Nat

/-- Path relative to the run's root folder: directory segments, stem, and
extension with its leading dot (empty when the name has no extension).
Models the pathlib.Path values the script manipulates. -/
structure FsPath where
  parts : List String
  stem : String
  ext : String
deriving DecidableEq

/-- Models Path.with_suffix: replace the extension, keep folder and stem. -/
def FsPath.withSuffix (p : FsPath) (s : String) : FsPath := { p with ext := s }

/-- Filesystem snapshot: association list from path to contents. -/
abbrev FS := List (FsPath × Bytes)

/-- Contents stored at a path, if any. -/
def fsLookup : FS → FsPath → Option Bytes
  | [], _ => none
  | e :: rest, p => if e.1 = p then some e.2 else fsLookup rest p

/-- Models Path.exists on the snapshot. -/
def fsExists (fs : FS) (p : FsPath) : Bool := (fsLookup fs p).isSome

/-- Models Path.unlink: remove the entry at a path. -/
def fsErase (fs : FS) (p : FsPath) : FS := fs.filter (fun e => decide (e.1 ≠ p))

/-- Models writing bytes at a path (creating or overwriting the file). -/
def fsWrite (fs : FS) (p : FsPath) (b : Bytes) : FS := (p, b) :: fsErase fs p

theorem fsLookup_erase_ne (fs : FS) (p q : FsPath) (h : q ≠ p) :
    fsLookup (fsErase fs p) q = fsLookup fs q := by
  induction fs with
  | nil => rfl
  | cons e rest ih =>
    rcases eq_or_ne e.1 p with he | he
    · rcases eq_or_ne e.1 q with hq | hq
      · exact absurd (hq.symm.trans he) h
      · simpa [fsErase, List.filter_cons, he, fsLookup, hq, h, h.symm]
          using ih
    · rcases eq_or_ne e.1 q with hq | hq
      · simp [fsErase, List.filter_cons, he, fsLookup, hq, h, h.symm]
      · simpa [fsErase, List.filter_cons, he, fsLookup, hq, h, h.symm]
          using ih

theorem fsLookup_write_self (fs : FS) (p : FsPath) (b : Bytes) :
    fsLookup (fsWrite fs p b) p = some b := by
  simp [fsWrite, fsLookup]

theorem fsLookup_write_ne (fs : FS) (p : FsPath) (b : Bytes) (q : FsPath)
    (h : q ≠ p) : fsLookup (fsWrite fs p b) q = fsLookup fs q := by
  have hp : ¬ p = q := fun hh => h hh.symm
  simp [fsWrite, fsLookup, hp]
  exact fsLookup_erase_ne fs p q h

/-- Models str.upper as applied to the confirmation token. -/
def upperStr (s : String) : String := String.mk (s.data.map Char.toUpper)

/-- Models str.lower as applied to file extensions. -/
def lowerStr (s : String) : String := String.mk (s.data.map Char.toLower)

/-- Models str.strip: drop leading and trailing whitespace. -/
def trimStr (s : String) : String :=
  String.mk (((s.data.dropWhile Char.isWhitespace).reverse.dropWhile
    Char.isWhitespace).reverse)

/-- WEBP_QUALITY constant, line 32. -/
def WEBP_QUALITY : Nat := 82

/-- WEBP_METHOD constant, line 33. -/
def WEBP_METHOD : Nat := 6

/-- BACKUP_FOLDER_NAME constant, line 47. -/
def BACKUP_FOLDER_NAME : String := "_backup_originals"

/-- SUPPORTED_EXTENSIONS constant, line 50. -/
def SUPPORTED_EXTENSIONS : List String :=
  [".jpg", ".jpeg", ".png", ".bmp", ".tif", ".tiff", ".gif"]

/-- Suffix given to every output file, line 120. -/
def webpSuffix : String := ".webp"

/-- Static configuration of a run (the module-level constants, lines
32-50, made explicit so theorems can quantify over them). -/
structure Config where
  webpQuality : Nat
  webpMethod : Nat
  maxWidth : Option Nat
  maxHeight : Option Nat
  recursive : Bool
  deleteOriginals : Bool
  makeBackup : Bool
deriving DecidableEq

/-- Decoded image record: dimensions, color mode, animation flag, the EXIF
orientation tag (1 means upright), presence of ancillary metadata, and
frame count. -/
structure Img where
  width : Nat
  height : Nat
  mode : String
  isAnimated : Bool
  orientation : Nat
  hasMetadata : Bool
  frames : Nat
deriving DecidableEq

/-- Keyword arguments passed to the encoder, lines 161-171.  Absent keys
are modelled as save_all false and loop none. -/
structure SaveKwargs where
  format : String
  quality : Nat
  method : Nat
  optimize : Bool
  save_all : Bool
  loop : Option Nat
deriving DecidableEq

/-- Model of PIL ImageOps.exif_transpose, line 136: bake the EXIF
orientation into the pixels (orientations 5 to 8 swap width and height)
and drop the orientation tag. -/
def exif_transpose (img : Img) : Img :=
  if 5 ≤ img.orientation ∧ img.orientation ≤ 8 then
    { img with width := img.height, height := img.width, orientation := 1 }
  else
    { img with orientation := 1 }

/-- Bounded resize, lines 139-145: runs only when both maxima are
configured; scale is min(maxW/w, maxH/h, 1.0); the image is resized only
when scale is strictly below 1, to (floor(w*scale), floor(h*scale)). -/
def resizeStep (cfg : Config) (img : Img) : Img :=
  match cfg.maxWidth, cfg.maxHeight with
  | some mw, some mh =>
    let scale : ℚ :=
      min (min ((mw : ℚ) / (img.width : ℚ)) ((mh : ℚ) / (img.height : ℚ))) 1
    if scale < 1 then
      { img with width := Nat.floor ((img.width : ℚ) * scale),
                 height := Nat.floor ((img.height : ℚ) * scale) }
    else img
  | _, _ => img

/-- Metadata stripping, lines 147-151: the image is rebuilt from its raw
pixel values alone, so all ancillary metadata is dropped. -/
def stripMetadata (img : Img) : Img := { img with hasMetadata := false }

/-- Color mode normalization, lines 157-159. -/
def modeNormalize (img : Img) : Img :=
  if img.mode = "RGB" ∨ img.mode = "RGBA" ∨ img.mode = "P" then img
  else { img with mode := "RGB" }

/-- In-memory transformation applied before saving, lines 131-159:
non-animated images get orientation correction, bounded resize, metadata
strip and mode normalization; animated images only mode normalization. -/
def transformPipeline (cfg : Config) (img : Img) : Img :=
  if img.isAnimated then modeNormalize img
  else modeNormalize (stripMetadata (resizeStep cfg (exif_transpose img)))

/-- Encoder keyword arguments, lines 161-171: fixed format, configured
quality and method, optimize on; animated inputs additionally get
save_all and an infinite loop count. -/
def mkSaveKwargs (cfg : Config) (animated : Bool) : SaveKwargs :=
  { format := "WEBP", quality := cfg.webpQuality, method := cfg.webpMethod,
    optimize := true, save_all := animated,
    loop := if animated then some 0 else none }

/-- Derived output path, line 120: same stem, .webp extension. -/
def outPath (p : FsPath) : FsPath := FsPath.withSuffix p webpSuffix

/-- File classifier of iter_image_files, lines 80-87: lowercased
extension in the allow-list and not inside the backup folder.  The
is-regular-file test is implicit because the model filesystem holds only
regular files. -/
def isEligible (p : FsPath) : Bool :=
  (SUPPORTED_EXTENSIONS.contains (lowerStr p.ext)) &&
    !(p.parts.contains BACKUP_FOLDER_NAME)

/-- Candidate enumeration of iter_image_files over a snapshot; the
enumeration order is the snapshot order (the script gives no ordering
guarantee). -/
def iterImageFiles (fs : FS) : List FsPath :=
  (fs.map (fun e => e.1)).filter isEligible

/-- Backup destination: the backup folder mirrors the source tree, so the
destination is the backup folder name prepended to the relative path. -/
def backupDest (p : FsPath) : FsPath :=
  { p with parts := BACKUP_FOLDER_NAME :: p.parts }

/-- Model of backup_original, lines 96-109: no-op when backups are off;
skip when the destination exists; else copy the original bytes verbatim. -/
def backup_original (cfg : Config) (fs : FS) (p : FsPath) : FS :=
  if cfg.makeBackup = false then fs
  else
    if fsExists fs (backupDest p) then fs
    else
      match fsLookup fs p with
      | some b => fsWrite fs (backupDest p) b
      | none => fs

/-- Observable per-file actions of optimize_image. -/
inductive Ev where
  | decode
  | transform
  | backup
  | encode
  | verify
  | deleteOrig
  | errorReported
deriving DecidableEq

/-- Save, post-encode verification, and conditional deletion, lines
178-198: encoding failure is reported; a written output is verified to be
non-empty; on success the original is deleted only when deletion is
enabled and the paths differ. -/
def finishSave (cfg : Config) (fs1 : FS) (p outp : FsPath) (pre : List Ev) :
    Option Bytes → FS × List Ev
  | none => (fs1, pre ++ [Ev.errorReported])
  | some ob =>
    let fs2 := fsWrite fs1 outp ob
    if 0 < ob.length then
      if cfg.deleteOriginals = true ∧ p ≠ outp then
        (fsErase fs2 p, pre ++ [Ev.encode, Ev.verify, Ev.deleteOrig])
      else
        (fs2, pre ++ [Ev.encode, Ev.verify])
    else
      (fs2, pre ++ [Ev.encode, Ev.verify, Ev.errorReported])

/-- Model of optimize_image, lines 112-203.  The decode oracle models
Image.open (none is an open or parse failure, raising an exception the
function catches); the encode oracle models save (none is a raised
exception, some gives the written bytes).  Returns the new filesystem and
the event trace of the call. -/
def optimizeImage (cfg : Config) (dec : Bytes → Option Img)
    (enc : Img → SaveKwargs → Option Bytes) (hasBackupRoot : Bool)
    (fs : FS) (p : FsPath) : FS × List Ev :=
  if fsExists fs (outPath p) then (fs, [])
  else
    match fsLookup fs p with
    | none => (fs, [Ev.errorReported])
    | some bytes =>
      match dec bytes with
      | none => (fs, [Ev.errorReported])
      | some img =>
        let imgT := transformPipeline cfg img
        let fs1 := if hasBackupRoot then backup_original cfg fs p else fs
        let pre := if hasBackupRoot then [Ev.decode, Ev.transform, Ev.backup]
                   else [Ev.decode, Ev.transform]
        finishSave cfg fs1 p (outPath p) pre (enc imgT (mkSaveKwargs cfg img.isAnimated))

/-- Main per-file loop, lines 238-241: every candidate is attempted and
counted, whatever the outcome of its processing. -/
def runLoop (cfg : Config) (dec : Bytes → Option Img)
    (enc : Img → SaveKwargs → Option Bytes) (hasBackupRoot : Bool) :
    FS → List FsPath → FS × Nat
  | fs, [] => (fs, 0)
  | fs, p :: rest =>
    let fs1 := (optimizeImage cfg dec enc hasBackupRoot fs p).1
    let r := runLoop cfg dec enc hasBackupRoot fs1 rest
    (r.1, r.2 + 1)

/-- Confirmation test, line 232: strip the interactive input, uppercase
it, and compare with the token SI. -/
def confirmAccepted (s : String) : Bool := upperStr (trimStr s) == "SI"

/-- Outcome of a whole run of main. -/
structure RunOutcome where
  fs : FS
  count : Nat
  backupFolderCreated : Bool
  aborted : Bool
deriving DecidableEq

/-- Model of main, lines 206-251: when deletion is enabled the run aborts
unless the confirmation input is accepted; otherwise the backup folder is
created when backups are on and every candidate is processed. -/
def mainRun (cfg : Config) (dec : Bytes → Option Img)
    (enc : Img → SaveKwargs → Option Bytes) (fs : FS) (input : String) :
    RunOutcome :=
  if cfg.deleteOriginals = true ∧ confirmAccepted input = false then
    { fs := fs, count := 0, backupFolderCreated := false, aborted := true }
  else
    let r := runLoop cfg dec enc cfg.makeBackup fs (iterImageFiles fs)
    { fs := r.1, count := r.2, backupFolderCreated := cfg.makeBackup,
      aborted := false }

/-- Order in which the mainline per-file events occur in the code. -/
def codeEventOrder : List Ev :=
  [Ev.decode, Ev.transform, Ev.backup, Ev.encode, Ev.verify, Ev.deleteOrig]

/-- Order claimed by the specification for the per-file sub-steps, with
the backup before the transform. -/
def specClaimedEventOrder : List Ev :=
  [Ev.decode, Ev.backup, Ev.transform, Ev.encode, Ev.verify, Ev.deleteOrig]

theorem backupDest_ne (p : FsPath) : backupDest p ≠ p := by
  intro h
  have hparts := congrArg FsPath.parts h
  simp [backupDest] at hparts

theorem fsLookup_backup_self (cfg : Config) (fs : FS) (p : FsPath) :
    fsLookup (backup_original cfg fs p) p = fsLookup fs p := by
  unfold backup_original
  split
  · rfl
  · split
    · rfl
    · cases hlook : fsLookup fs p with
      | none => exact hlook
      | some b =>
        simp [fsLookup_write_ne fs (backupDest p) b p (backupDest_ne p).symm]
        exact hlook

theorem modeNormalize_fields (img : Img) :
    (modeNormalize img).width = img.width ∧
    (modeNormalize img).height = img.height ∧
    (modeNormalize img).hasMetadata = img.hasMetadata ∧
    (modeNormalize img).orientation = img.orientation ∧
    (modeNormalize img).frames = img.frames ∧
    (modeNormalize img).isAnimated = img.isAnimated := by
  unfold modeNormalize
  split <;> simp

/-- Configuration with the script's literal constants, lines 32-50. -/
def demoCfg : Config :=
  { webpQuality := 82, webpMethod := 6, maxWidth := some 1920,
    maxHeight := some 1920, recursive := true, deleteOriginals := true,
    makeBackup := true }

/-- Same configuration with the resize bounds unset. -/
def plainCfg : Config := { demoCfg with maxWidth := none, maxHeight := none }

/-- Sample still image, the end-to-end scenario of the specification. -/
def demoImg : Img :=
  { width := 4000, height := 3000, mode := "RGB", isAnimated := false,
    orientation := 1, hasMetadata := true, frames := 1 }

/-- Sample animated image. -/
def animImg : Img :=
  { width := 320, height := 240, mode := "P", isAnimated := true,
    orientation := 1, hasMetadata := true, frames := 12 }

/-- Sample eligible source path. -/
def pJpg : FsPath := { parts := [], stem := "photo", ext := ".jpg" }

/-- Decode oracle that always succeeds with a fixed image. -/
def decSome (i : Img) : Bytes → Option Img := fun _ => some i

/-- Decode oracle that always fails (corrupt input). -/
def decNone : Bytes → Option Img := fun _ => none

/-- Encode oracle that always writes fixed bytes. -/
def encSome (b : Bytes) : Img → SaveKwargs → Option Bytes := fun _ _ => some b

/-- Encode oracle that always raises. -/
def encNone : Img → SaveKwargs → Option Bytes := fun _ _ => none

/-- C1: when the derived output path already exists, optimize_image
returns at once: the filesystem is unchanged and the event trace is
empty, so no decode, backup, encode or deletion happens for that file and
a re-run over an already-converted tree changes nothing for it. -/
theorem skip_existing_output (cfg : Config) (dec : Bytes → Option Img)
    (enc : Img → SaveKwargs → Option Bytes) (hb : Bool) (fs : FS)
    (p : FsPath) (h : fsExists fs (outPath p) = true) :
    optimizeImage cfg dec enc hb fs p = (fs, []) := by
  simp [optimizeImage, h]

/-- Witness for C1 on a concrete tree that already holds the output. -/
theorem skip_existing_output_witness :
    fsExists [(outPath pJpg, [1]), (pJpg, [9])] (outPath pJpg) = true ∧
    optimizeImage plainCfg decNone encNone true
        [(outPath pJpg, [1]), (pJpg, [9])] pJpg =
      ([(outPath pJpg, [1]), (pJpg, [9])], []) :=
  ⟨by decide,
   skip_existing_output plainCfg decNone encNone true
     [(outPath pJpg, [1]), (pJpg, [9])] pJpg (by decide)⟩

/-- C9: the skip check tests only existence of the output path, not its
size, so a zero-length output left behind by an earlier failed encode
makes every later run skip the source file: no re-encode, no backup, no
deletion while the empty output remains. -/
theorem zero_length_output_blocks (cfg : Config) (dec : Bytes → Option Img)
    (enc : Img → SaveKwargs → Option Bytes) (hb : Bool) (fs : FS)
    (p : FsPath) (h : fsLookup fs (outPath p) = some ([] : Bytes)) :
    optimizeImage cfg dec enc hb fs p = (fs, []) := by
  have he : fsExists fs (outPath p) = true := by simp [fsExists, h]
  simp [optimizeImage, he]

/-- Witness for C9 with a concrete zero-length stale output. -/
theorem zero_length_output_blocks_witness :
    fsLookup [(outPath pJpg, []), (pJpg, [9])] (outPath pJpg) =
      some ([] : Bytes) ∧
    optimizeImage demoCfg decNone encNone true
        [(outPath pJpg, []), (pJpg, [9])] pJpg =
      ([(outPath pJpg, []), (pJpg, [9])], []) :=
  ⟨by decide,
   zero_length_output_blocks demoCfg decNone encNone true
     [(outPath pJpg, []), (pJpg, [9])] pJpg (by decide)⟩

/-- C5: backup_original writes its destination at most once.  Running it
again after it ran once changes nothing; when the destination already
exists the filesystem is untouched (never overwritten); otherwise the
original bytes are copied verbatim to the destination. -/
theorem backup_original_write_once (cfg : Config) (fs : FS) (p : FsPath) :
    backup_original cfg (backup_original cfg fs p) p =
      backup_original cfg fs p ∧
    (fsExists fs (backupDest p) = true → backup_original cfg fs p = fs) ∧
    (∀ b : Bytes, cfg.makeBackup = true →
      fsExists fs (backupDest p) = false → fsLookup fs p = some b →
      backup_original cfg fs p = fsWrite fs (backupDest p) b ∧
      fsLookup (backup_original cfg fs p) (backupDest p) = some b) := by
  refine ⟨?_, ?_, ?_⟩
  · cases hmb : cfg.makeBackup with
    | false => simp [backup_original, hmb]
    | true =>
      cases hex : fsExists fs (backupDest p) with
      | true => simp [backup_original, hmb, hex]
      | false =>
        cases hlook : fsLookup fs p with
        | none => simp [backup_original, hmb, hex, hlook]
        | some b =>
          have h2 : fsExists (fsWrite fs (backupDest p) b) (backupDest p) =
              true := by
            simp [fsExists, fsLookup_write_self]
          simp [backup_original, hmb, hex, hlook, h2]
  · intro hex
    cases hmb : cfg.makeBackup with
    | false => simp [backup_original, hmb]
    | true => simp [backup_original, hmb, hex]
  · intro b hmb hex hlook
    constructor
    · simp [backup_original, hmb, hex, hlook]
    · simp [backup_original, hmb, hex, hlook, fsLookup_write_self]

/-- Witness for C5 on a concrete filesystem holding one original. -/
theorem backup_original_write_once_witness :
    backup_original demoCfg (backup_original demoCfg [(pJpg, [7])] pJpg)
        pJpg =
      backup_original demoCfg [(pJpg, [7])] pJpg ∧
    fsLookup (backup_original demoCfg [(pJpg, [7])] pJpg)
        (backupDest pJpg) = some [7] :=
  ⟨(backup_original_write_once demoCfg [(pJpg, [7])] pJpg).1,
   ((backup_original_write_once demoCfg [(pJpg, [7])] pJpg).2.2 [7] rfl
     (by decide) (by decide)).2⟩

/-- C8: animated inputs skip orientation correction, resize and metadata
stripping; only color-mode normalization is applied, so dimensions,
metadata, orientation tag and frame count are untouched, and the encoder
arguments carry save_all with an infinite loop count of zero. -/
theorem animated_mode_normalization_only (cfg : Config) (img : Img)
    (h : img.isAnimated = true) :
    transformPipeline cfg img = modeNormalize img ∧
    (transformPipeline cfg img).width = img.width ∧
    (transformPipeline cfg img).height = img.height ∧
    (transformPipeline cfg img).hasMetadata = img.hasMetadata ∧
    (transformPipeline cfg img).orientation = img.orientation ∧
    (transformPipeline cfg img).frames = img.frames ∧
    (mkSaveKwargs cfg img.isAnimated).save_all = true ∧
    (mkSaveKwargs cfg img.isAnimated).loop = some 0 := by
  have hp : transformPipeline cfg img = modeNormalize img := by
    simp [transformPipeline, h]
  have hf := modeNormalize_fields img
  exact ⟨hp, by rw [hp]; exact hf.1, by rw [hp]; exact hf.2.1,
    by rw [hp]; exact hf.2.2.1, by rw [hp]; exact hf.2.2.2.1,
    by rw [hp]; exact hf.2.2.2.2.1, by simp [mkSaveKwargs, h],
    by simp [mkSaveKwargs, h]⟩

/-- Witness for C8 on a concrete animated image. -/
theorem animated_mode_normalization_only_witness :
    transformPipeline demoCfg animImg = modeNormalize animImg ∧
    (transformPipeline demoCfg animImg).width = animImg.width ∧
    (transformPipeline demoCfg animImg).height = animImg.height ∧
    (transformPipeline demoCfg animImg).hasMetadata =
      animImg.hasMetadata ∧
    (transformPipeline demoCfg animImg).orientation =
      animImg.orientation ∧
    (transformPipeline demoCfg animImg).frames = animImg.frames ∧
    (mkSaveKwargs demoCfg animImg.isAnimated).save_all = true ∧
    (mkSaveKwargs demoCfg animImg.isAnimated).loop = some 0 :=
  animated_mode_normalization_only demoCfg animImg rfl

/-- C3: with deletion enabled the run proceeds exactly when the trimmed,
uppercased interactive input equals the token SI; any other input aborts
the whole run before the backup folder is created and before any file is
read, written, backed up or deleted. -/
theorem confirmation_gate (cfg : Config) (dec : Bytes → Option Img)
    (enc : Img → SaveKwargs → Option Bytes) (fs : FS) (input : String)
    (hdel : cfg.deleteOriginals = true) :
    ((mainRun cfg dec enc fs input).aborted = false ↔
      upperStr (trimStr input) = "SI") ∧
    (upperStr (trimStr input) ≠ "SI" →
      mainRun cfg dec enc fs input =
        { fs := fs, count := 0, backupFolderCreated := false,
          aborted := true }) := by
  constructor
  · constructor
    · intro hab
      by_contra hne
      have hc : confirmAccepted input = false := by
        simp [confirmAccepted]
        exact hne
      simp [mainRun, hdel, hc] at hab
    · intro hsi
      have hc : confirmAccepted input = true := by
        simp [confirmAccepted, hsi]
      simp [mainRun, hc]
  · intro hne
    have hc : confirmAccepted input = false := by
      simp [confirmAccepted]
      exact hne
    simp [mainRun, hdel, hc]

/-- Witness for C3: a declined confirmation is a pure no-op run. -/
theorem confirmation_gate_witness :
    ((mainRun plainCfg decNone encNone [(pJpg, [7])] "no").aborted =
        false ↔
      upperStr (trimStr "no") = "SI") ∧
    (upperStr (trimStr "no") ≠ "SI" →
      mainRun plainCfg decNone encNone [(pJpg, [7])] "no" =
        { fs := [(pJpg, [7])], count := 0, backupFolderCreated := false,
          aborted := true }) :=
  confirmation_gate plainCfg decNone encNone [(pJpg, [7])] "no" rfl

/-- C7: a failing decode is caught inside optimize_image, which reports
the error and leaves the filesystem unchanged; the main loop continues
with the remaining candidates, and the run counter counts every candidate
attempted, failures and skips included. -/
theorem per_file_errors_isolated (cfg : Config) (dec : Bytes → Option Img)
    (enc : Img → SaveKwargs → Option Bytes) (hb : Bool) (fs : FS)
    (p : FsPath) (rest : List FsPath) (bytes : Bytes)
    (hout : fsExists fs (outPath p) = false)
    (hsrc : fsLookup fs p = some bytes) (hdec : dec bytes = none) :
    optimizeImage cfg dec enc hb fs p = (fs, [Ev.errorReported]) ∧
    runLoop cfg dec enc hb fs (p :: rest) =
      ((runLoop cfg dec enc hb fs rest).1,
       (runLoop cfg dec enc hb fs rest).2 + 1) ∧
    (∀ (fs0 : FS) (files : List FsPath),
      (runLoop cfg dec enc hb fs0 files).2 = files.length) := by
  have h1 : optimizeImage cfg dec enc hb fs p = (fs, [Ev.errorReported]) := by
    simp [optimizeImage, hout, hsrc, hdec]
  refine ⟨h1, by simp [runLoop, h1], ?_⟩
  intro fs0 files
  induction files generalizing fs0 with
  | nil => rfl
  | cons q qs ih => simp [runLoop, ih]

/-- Witness for C7: one corrupt candidate, count still reaches the total. -/
theorem per_file_errors_isolated_witness :
    optimizeImage plainCfg decNone encNone true [(pJpg, [7])] pJpg =
      ([(pJpg, [7])], [Ev.errorReported]) ∧
    (runLoop plainCfg decNone encNone true [] [pJpg, pJpg]).2 = 2 :=
  ⟨(per_file_errors_isolated plainCfg decNone encNone true [(pJpg, [7])]
      pJpg [] [7] (by decide) (by decide) rfl).1,
   by
     have h := (per_file_errors_isolated plainCfg decNone encNone true
       [(pJpg, [7])] pJpg [] [7] (by decide) (by decide) rfl).2.2 []
       [pJpg, pJpg]
     simpa using h⟩

theorem optimizeImage_red_nb (cfg : Config) (dec : Bytes → Option Img)
    (enc : Img → SaveKwargs → Option Bytes) (fs : FS) (p : FsPath)
    (bytes : Bytes) (img : Img) (hex : fsExists fs (outPath p) = false)
    (hlook : fsLookup fs p = some bytes) (hdec : dec bytes = some img) :
    optimizeImage cfg dec enc false fs p =
      finishSave cfg fs p (outPath p) [Ev.decode, Ev.transform]
        (enc (transformPipeline cfg img) (mkSaveKwargs cfg img.isAnimated)) := by
  simp [optimizeImage, hex, hlook, hdec]

theorem optimizeImage_red_wb (cfg : Config) (dec : Bytes → Option Img)
    (enc : Img → SaveKwargs → Option Bytes) (fs : FS) (p : FsPath)
    (bytes : Bytes) (img : Img) (hex : fsExists fs (outPath p) = false)
    (hlook : fsLookup fs p = some bytes) (hdec : dec bytes = some img) :
    optimizeImage cfg dec enc true fs p =
      finishSave cfg (backup_original cfg fs p) p (outPath p)
        [Ev.decode, Ev.transform, Ev.backup]
        (enc (transformPipeline cfg img) (mkSaveKwargs cfg img.isAnimated)) := by
  simp [optimizeImage, hex, hlook, hdec]

theorem finishSave_trace (cfg : Config) (fs1 : FS) (p outp : FsPath)
    (pre : List Ev) (r : Option Bytes) :
    (finishSave cfg fs1 p outp pre r).2 = pre ++ [Ev.errorReported] ∨
    (finishSave cfg fs1 p outp pre r).2 =
      pre ++ [Ev.encode, Ev.verify, Ev.deleteOrig] ∨
    (finishSave cfg fs1 p outp pre r).2 = pre ++ [Ev.encode, Ev.verify] ∨
    (finishSave cfg fs1 p outp pre r).2 =
      pre ++ [Ev.encode, Ev.verify, Ev.errorReported] := by
  cases r with
  | none => exact Or.inl rfl
  | some ob =>
    by_cases hlen : 0 < ob.length
    · by_cases hdel : cfg.deleteOriginals = true ∧ p ≠ outp
      · exact Or.inr (Or.inl (by simp [finishSave, hlen, hdel]))
      · exact Or.inr (Or.inr (Or.inl (by simp [finishSave, hlen, hdel])))
    · exact Or.inr (Or.inr (Or.inr (by simp [finishSave, hlen])))

theorem finishSave_gates (cfg : Config) (fs1 : FS) (p outp : FsPath)
    (pre : List Ev) (r : Option Bytes) (hne : p ≠ outp)
    (hpre : Ev.deleteOrig ∉ pre) :
    (Ev.deleteOrig ∈ (finishSave cfg fs1 p outp pre r).2 →
      cfg.deleteOriginals = true ∧
      ∃ b : Bytes,
        fsLookup (finishSave cfg fs1 p outp pre r).1 outp = some b ∧
        0 < b.length) ∧
    (∀ ob : Bytes, r = some ob → ob.length = 0 →
      Ev.deleteOrig ∉ (finishSave cfg fs1 p outp pre r).2 ∧
      Ev.errorReported ∈ (finishSave cfg fs1 p outp pre r).2 ∧
      fsLookup (finishSave cfg fs1 p outp pre r).1 p = fsLookup fs1 p) ∧
    (r = none →
      Ev.deleteOrig ∉ (finishSave cfg fs1 p outp pre r).2 ∧
      Ev.errorReported ∈ (finishSave cfg fs1 p outp pre r).2 ∧
      (finishSave cfg fs1 p outp pre r).1 = fs1) := by
  refine ⟨?_, ?_, ?_⟩
  · intro hmem
    cases r with
    | none =>
      exfalso
      simp only [finishSave] at hmem
      rcases List.mem_append.mp hmem with h | h
      · exact absurd h hpre
      · exact absurd h (by decide)
    | some ob =>
      simp only [finishSave] at hmem ⊢
      by_cases hlen : 0 < ob.length
      · by_cases hdel : cfg.deleteOriginals = true ∧ p ≠ outp
        · simp only [if_pos hlen, if_pos hdel] at hmem ⊢
          refine ⟨hdel.1, ob, ?_, hlen⟩
          rw [fsLookup_erase_ne (fsWrite fs1 outp ob) p outp (Ne.symm hne)]
          exact fsLookup_write_self fs1 outp ob
        · exfalso
          simp only [if_pos hlen, if_neg hdel] at hmem
          rcases List.mem_append.mp hmem with h | h
          · exact absurd h hpre
          · exact absurd h (by decide)
      · exfalso
        simp only [if_neg hlen] at hmem
        rcases List.mem_append.mp hmem with h | h
        · exact absurd h hpre
        · exact absurd h (by decide)
  · intro ob hr hlen
    subst hr
    have hnl : ¬ 0 < ob.length := by omega
    simp only [finishSave, if_neg hnl]
    refine ⟨?_, ?_, ?_⟩
    · intro hmem
      rcases List.mem_append.mp hmem with h | h
      · exact absurd h hpre
      · exact absurd h (by decide)
    · exact List.mem_append.mpr (Or.inr (by decide))
    · exact fsLookup_write_ne fs1 outp ob p hne
  · intro hr
    subst hr
    simp only [finishSave]
    refine ⟨?_, ?_, by trivial⟩
    · intro hmem
      rcases List.mem_append.mp hmem with h | h
      · exact absurd h hpre
      · exact absurd h (by decide)
    · exact List.mem_append.mpr (Or.inr (by decide))

/-- C6: deletion is gated by the post-encode verification.  The original
is deleted only when deletion is enabled and the output was written with
size strictly positive; a zero-length or missing output is reported as an
error and the original survives, even with deletion enabled. -/
theorem verification_gates_deletion (cfg : Config) (dec : Bytes → Option Img)
    (enc : Img → SaveKwargs → Option Bytes) (hb : Bool) (fs : FS)
    (p : FsPath) (bytes : Bytes) (img : Img)
    (hout : fsExists fs (outPath p) = false)
    (hsrc : fsLookup fs p = some bytes) (hdec : dec bytes = some img) :
    (Ev.deleteOrig ∈ (optimizeImage cfg dec enc hb fs p).2 →
      cfg.deleteOriginals = true ∧
      ∃ b : Bytes,
        fsLookup (optimizeImage cfg dec enc hb fs p).1 (outPath p) =
          some b ∧ 0 < b.length) ∧
    (∀ ob : Bytes,
      enc (transformPipeline cfg img) (mkSaveKwargs cfg img.isAnimated) =
        some ob → ob.length = 0 →
      Ev.deleteOrig ∉ (optimizeImage cfg dec enc hb fs p).2 ∧
      Ev.errorReported ∈ (optimizeImage cfg dec enc hb fs p).2 ∧
      fsLookup (optimizeImage cfg dec enc hb fs p).1 p = some bytes) ∧
    (enc (transformPipeline cfg img) (mkSaveKwargs cfg img.isAnimated) =
        none →
      Ev.deleteOrig ∉ (optimizeImage cfg dec enc hb fs p).2 ∧
      Ev.errorReported ∈ (optimizeImage cfg dec enc hb fs p).2 ∧
      fsLookup (optimizeImage cfg dec enc hb fs p).1 p = some bytes) := by
  have hne : p ≠ outPath p := by
    intro h
    rw [← h] at hout
    simp [fsExists, hsrc] at hout
  cases hb with
  | false =>
    rw [optimizeImage_red_nb cfg dec enc fs p bytes img hout hsrc hdec]
    have hg := finishSave_gates cfg fs p (outPath p)
      [Ev.decode, Ev.transform]
      (enc (transformPipeline cfg img) (mkSaveKwargs cfg img.isAnimated))
      hne (by decide)
    refine ⟨hg.1, ?_, ?_⟩
    · intro ob hr hlen
      obtain ⟨h1, h2, h3⟩ := hg.2.1 ob hr hlen
      exact ⟨h1, h2, h3.trans hsrc⟩
    · intro hr
      obtain ⟨h1, h2, h3⟩ := hg.2.2 hr
      exact ⟨h1, h2, by rw [h3]; exact hsrc⟩
  | true =>
    rw [optimizeImage_red_wb cfg dec enc fs p bytes img hout hsrc hdec]
    have hb1 : fsLookup (backup_original cfg fs p) p = some bytes := by
      rw [fsLookup_backup_self]
      exact hsrc
    have hg := finishSave_gates cfg (backup_original cfg fs p) p (outPath p)
      [Ev.decode, Ev.transform, Ev.backup]
      (enc (transformPipeline cfg img) (mkSaveKwargs cfg img.isAnimated))
      hne (by decide)
    refine ⟨hg.1, ?_, ?_⟩
    · intro ob hr hlen
      obtain ⟨h1, h2, h3⟩ := hg.2.1 ob hr hlen
      exact ⟨h1, h2, h3.trans hb1⟩
    · intro hr
      obtain ⟨h1, h2, h3⟩ := hg.2.2 hr
      exact ⟨h1, h2, by rw [h3]; exact hb1⟩

/-- Witness for C6: a zero-length encode blocks the deletion. -/
theorem verification_gates_deletion_witness :
    Ev.deleteOrig ∉
      (optimizeImage plainCfg (decSome demoImg) (encSome []) true
        [(pJpg, [7])] pJpg).2 ∧
    Ev.errorReported ∈
      (optimizeImage plainCfg (decSome demoImg) (encSome []) true
        [(pJpg, [7])] pJpg).2 ∧
    fsLookup
      (optimizeImage plainCfg (decSome demoImg) (encSome []) true
        [(pJpg, [7])] pJpg).1 pJpg = some [7] :=
  (verification_gates_deletion plainCfg (decSome demoImg) (encSome [])
    true [(pJpg, [7])] pJpg [7] demoImg (by decide) (by decide)
    rfl).2.1 [] rfl rfl

/-- Counterexample for C4 as stated: on a concrete successful run the
event trace is decode, transform, backup, encode, verify, delete — the
transform runs before the backup (source lines 134-159 precede line 174),
so the trace is not a sublist of the order claimed by the specification
(decode, backup, transform, encode, verify, delete). -/
theorem per_file_event_order_spec_cex :
    ¬ List.Sublist
      (((optimizeImage plainCfg (decSome demoImg) (encSome [1, 2]) true
          [(pJpg, [7])] pJpg).2).filter (fun e => e != Ev.errorReported))
      specClaimedEventOrder := by decide

/-- C4 amended: the per-file sub-steps run strictly in the order
classify, skip if output exists, decode, transform, backup, encode,
verify, conditionally delete (the transform precedes the backup); the
backup is still made before any step that mutates or deletes the source
file, since whenever an encode or a deletion happens with a backup root
configured, the backup step occurs, and the mainline trace is always an
order-preserving sublist of that code order. -/
theorem per_file_event_order (cfg : Config) (dec : Bytes → Option Img)
    (enc : Img → SaveKwargs → Option Bytes) (hb : Bool) (fs : FS)
    (p : FsPath) :
    List.Sublist
      (((optimizeImage cfg dec enc hb fs p).2).filter
        (fun e => e != Ev.errorReported)) codeEventOrder ∧
    (hb = true →
      (Ev.encode ∈ (optimizeImage cfg dec enc hb fs p).2 →
        Ev.backup ∈ (optimizeImage cfg dec enc hb fs p).2) ∧
      (Ev.deleteOrig ∈ (optimizeImage cfg dec enc hb fs p).2 →
        Ev.backup ∈ (optimizeImage cfg dec enc hb fs p).2)) := by
  cases hex : fsExists fs (outPath p) with
  | true => simp [optimizeImage, hex]
  | false =>
    cases hlook : fsLookup fs p with
    | none => simp [optimizeImage, hex, hlook]
    | some bytes =>
      cases hdec : dec bytes with
      | none => simp [optimizeImage, hex, hlook, hdec]
      | some img =>
        cases hb with
        | false =>
          rw [optimizeImage_red_nb cfg dec enc fs p bytes img hex hlook hdec]
          rcases finishSave_trace cfg fs p (outPath p)
            [Ev.decode, Ev.transform]
            (enc (transformPipeline cfg img)
              (mkSaveKwargs cfg img.isAnimated)) with h | h | h | h <;>
            rw [h] <;> decide
        | true =>
          rw [optimizeImage_red_wb cfg dec enc fs p bytes img hex hlook hdec]
          rcases finishSave_trace cfg (backup_original cfg fs p) p (outPath p)
            [Ev.decode, Ev.transform, Ev.backup]
            (enc (transformPipeline cfg img)
              (mkSaveKwargs cfg img.isAnimated)) with h | h | h | h <;>
            rw [h] <;> decide

/-- Witness for C4 amended, on a concrete full run with backups on. -/
theorem per_file_event_order_witness :
    List.Sublist
      (((optimizeImage plainCfg (decSome demoImg) (encSome [1, 2]) true
          [(pJpg, [7])] pJpg).2).filter (fun e => e != Ev.errorReported))
      codeEventOrder ∧
    Ev.backup ∈ (optimizeImage plainCfg (decSome demoImg) (encSome [1, 2])
      true [(pJpg, [7])] pJpg).2 :=
  ⟨(per_file_event_order plainCfg (decSome demoImg) (encSome [1, 2]) true
      [(pJpg, [7])] pJpg).1,
   ((per_file_event_order plainCfg (decSome demoImg) (encSome [1, 2]) true
      [(pJpg, [7])] pJpg).2 rfl).1 (by decide)⟩

theorem finishSave_encode_exists (cfg : Config) (fs1 : FS) (p outp : FsPath)
    (pre : List Ev) (r : Option Bytes) (hne : outp ≠ p)
    (hpre : Ev.encode ∉ pre) :
    Ev.encode ∈ (finishSave cfg fs1 p outp pre r).2 →
    fsExists (finishSave cfg fs1 p outp pre r).1 outp = true := by
  cases r with
  | none =>
    intro hmem
    exfalso
    simp only [finishSave] at hmem
    rcases List.mem_append.mp hmem with h | h
    · exact absurd h hpre
    · exact absurd h (by decide)
  | some ob =>
    intro _
    simp only [finishSave]
    by_cases hlen : 0 < ob.length
    · by_cases hdel : cfg.deleteOriginals = true ∧ p ≠ outp
      · simp only [if_pos hlen, if_pos hdel]
        simp [fsExists, fsLookup_erase_ne (fsWrite fs1 outp ob) p outp hne,
          fsLookup_write_self]
      · simp only [if_pos hlen, if_neg hdel]
        simp [fsExists, fsLookup_write_self]
    · simp only [if_neg hlen]
      simp [fsExists, fsLookup_write_self]

/-- C10: .webp is not in the extension allow-list, so for every eligible
source the derived output path differs from the source path, the output
is itself never an eligible candidate (in this or any later run), and
whenever an encode happened the freshly written output still exists at
the end of the call — the delete-originals step never deletes it. -/
theorem webp_output_never_candidate (p : FsPath)
    (hel : isEligible p = true) :
    outPath p ≠ p ∧
    isEligible (outPath p) = false ∧
    (∀ fs : FS, outPath p ∉ iterImageFiles fs) ∧
    (∀ (cfg : Config) (dec : Bytes → Option Img)
       (enc : Img → SaveKwargs → Option Bytes) (hb : Bool) (fs : FS),
      Ev.encode ∈ (optimizeImage cfg dec enc hb fs p).2 →
      fsExists (optimizeImage cfg dec enc hb fs p).1 (outPath p) = true) := by
  have hwebp : ¬ lowerStr webpSuffix ∈ SUPPORTED_EXTENSIONS := by decide
  have hof : isEligible (outPath p) = false := by
    simp [isEligible, outPath, FsPath.withSuffix, hwebp]
  have hne : outPath p ≠ p := by
    intro h
    rw [← h] at hel
    rw [hof] at hel
    exact absurd hel (by decide)
  refine ⟨hne, hof, ?_, ?_⟩
  · intro fs hmem
    simp [iterImageFiles, List.mem_filter, hof] at hmem
  · intro cfg dec enc hb fs hmem
    cases hex : fsExists fs (outPath p) with
    | true =>
      rw [show optimizeImage cfg dec enc hb fs p = (fs, []) from by
        simp [optimizeImage, hex]] at hmem
      simp at hmem
    | false =>
      cases hlook : fsLookup fs p with
      | none =>
        rw [show optimizeImage cfg dec enc hb fs p =
            (fs, [Ev.errorReported]) from by
          simp [optimizeImage, hex, hlook]] at hmem
        simp at hmem
      | some bytes =>
        cases hdec : dec bytes with
        | none =>
          rw [show optimizeImage cfg dec enc hb fs p =
              (fs, [Ev.errorReported]) from by
            simp [optimizeImage, hex, hlook, hdec]] at hmem
          simp at hmem
        | some img =>
          cases hb with
          | false =>
            rw [optimizeImage_red_nb cfg dec enc fs p bytes img hex hlook
              hdec] at hmem ⊢
            exact finishSave_encode_exists cfg fs p (outPath p)
              [Ev.decode, Ev.transform] _ hne (by decide) hmem
          | true =>
            rw [optimizeImage_red_wb cfg dec enc fs p bytes img hex hlook
              hdec] at hmem ⊢
            exact finishSave_encode_exists cfg (backup_original cfg fs p) p
              (outPath p) [Ev.decode, Ev.transform, Ev.backup] _ hne
              (by decide) hmem

/-- Witness for C10 on a concrete eligible source path. -/
theorem webp_output_never_candidate_witness :
    outPath pJpg ≠ pJpg ∧
    isEligible (outPath pJpg) = false ∧
    outPath pJpg ∉ iterImageFiles [(pJpg, [7])] ∧
    fsExists
      (optimizeImage plainCfg (decSome demoImg) (encSome [1, 2]) true
        [(pJpg, [7])] pJpg).1 (outPath pJpg) = true := by
  have h := webp_output_never_candidate pJpg (by decide)
  exact ⟨h.1, h.2.1, h.2.2.1 [(pJpg, [7])],
    h.2.2.2 plainCfg (decSome demoImg) (encSome [1, 2]) true [(pJpg, [7])]
      (by decide)⟩

/-- C2: resizing needs both maxima configured (either one unset disables
it); with both set the scale is min(maxW/w, maxH/h, 1), the image is
resized exactly when the scale is below one, to floor(w*scale) by
floor(h*scale) with the one common scale factor (aspect preserved up to
the floor), and the result never exceeds either maximum and never
upscales. -/
theorem resize_bounded (cfg : Config) (img : Img) (hw : 0 < img.width)
    (hh : 0 < img.height) :
    ((cfg.maxWidth = none ∨ cfg.maxHeight = none) →
      resizeStep cfg img = img) ∧
    (∀ mw mh : Nat, cfg.maxWidth = some mw → cfg.maxHeight = some mh →
      ∀ s : ℚ,
        s = min (min ((mw : ℚ) / (img.width : ℚ))
          ((mh : ℚ) / (img.height : ℚ))) 1 →
        (resizeStep cfg img).width ≤ mw ∧
        (resizeStep cfg img).height ≤ mh ∧
        (resizeStep cfg img).width ≤ img.width ∧
        (resizeStep cfg img).height ≤ img.height ∧
        (s < 1 →
          (resizeStep cfg img).width = Nat.floor ((img.width : ℚ) * s) ∧
          (resizeStep cfg img).height = Nat.floor ((img.height : ℚ) * s)) ∧
        (1 ≤ s → resizeStep cfg img = img)) := by
  constructor
  · rintro (h | h)
    · simp [resizeStep, h]
    · rcases hm : cfg.maxWidth with _ | mw
      · simp [resizeStep, hm]
      · simp [resizeStep, hm, h]
  · intro mw mh hmw hmh s hs
    have hW0 : (0 : ℚ) < (img.width : ℚ) := by exact_mod_cast hw
    have hH0 : (0 : ℚ) < (img.height : ℚ) := by exact_mod_cast hh
    have hs1 : s ≤ 1 := by
      rw [hs]
      exact min_le_right _ _
    have hsW : s ≤ (mw : ℚ) / (img.width : ℚ) := by
      rw [hs]
      exact le_trans (min_le_left _ _) (min_le_left _ _)
    have hsH : s ≤ (mh : ℚ) / (img.height : ℚ) := by
      rw [hs]
      exact le_trans (min_le_left _ _) (min_le_right _ _)
    have hWmul : (img.width : ℚ) * s ≤ (mw : ℚ) := by
      calc (img.width : ℚ) * s
          ≤ (img.width : ℚ) * ((mw : ℚ) / (img.width : ℚ)) :=
            mul_le_mul_of_nonneg_left hsW (le_of_lt hW0)
        _ = (mw : ℚ) := by field_simp
    have hHmul : (img.height : ℚ) * s ≤ (mh : ℚ) := by
      calc (img.height : ℚ) * s
          ≤ (img.height : ℚ) * ((mh : ℚ) / (img.height : ℚ)) :=
            mul_le_mul_of_nonneg_left hsH (le_of_lt hH0)
        _ = (mh : ℚ) := by field_simp
    have hWle : (img.width : ℚ) * s ≤ (img.width : ℚ) := by
      calc (img.width : ℚ) * s
          ≤ (img.width : ℚ) * 1 :=
            mul_le_mul_of_nonneg_left hs1 (le_of_lt hW0)
        _ = (img.width : ℚ) := mul_one _
    have hHle : (img.height : ℚ) * s ≤ (img.height : ℚ) := by
      calc (img.height : ℚ) * s
          ≤ (img.height : ℚ) * 1 :=
            mul_le_mul_of_nonneg_left hs1 (le_of_lt hH0)
        _ = (img.height : ℚ) := mul_one _
    have hred : resizeStep cfg img =
        (if s < 1 then
          { img with width := Nat.floor ((img.width : ℚ) * s),
                     height := Nat.floor ((img.height : ℚ) * s) }
        else img) := by
      simp only [resizeStep, hmw, hmh]
      rw [← hs]
    by_cases hlt : s < 1
    · rw [hred, if_pos hlt]
      refine ⟨?_, ?_, ?_, ?_, fun _ => ⟨rfl, rfl⟩,
        fun hge => absurd hlt (not_lt.mpr hge)⟩
      · show Nat.floor ((img.width : ℚ) * s) ≤ mw
        calc Nat.floor ((img.width : ℚ) * s)
            ≤ Nat.floor ((mw : ℚ)) := Nat.floor_mono hWmul
          _ = mw := Nat.floor_natCast mw
      · show Nat.floor ((img.height : ℚ) * s) ≤ mh
        calc Nat.floor ((img.height : ℚ) * s)
            ≤ Nat.floor ((mh : ℚ)) := Nat.floor_mono hHmul
          _ = mh := Nat.floor_natCast mh
      · show Nat.floor ((img.width : ℚ) * s) ≤ img.width
        calc Nat.floor ((img.width : ℚ) * s)
            ≤ Nat.floor ((img.width : ℚ)) := Nat.floor_mono hWle
          _ = img.width := Nat.floor_natCast _
      · show Nat.floor ((img.height : ℚ) * s) ≤ img.height
        calc Nat.floor ((img.height : ℚ) * s)
            ≤ Nat.floor ((img.height : ℚ)) := Nat.floor_mono hHle
          _ = img.height := Nat.floor_natCast _
    · rw [hred, if_neg hlt]
      have hge : 1 ≤ s := not_lt.mp hlt
      have h1W : (img.width : ℚ) ≤ (mw : ℚ) := by
        have h1 : (1 : ℚ) ≤ (mw : ℚ) / (img.width : ℚ) := le_trans hge hsW
        calc (img.width : ℚ) = (img.width : ℚ) * 1 := (mul_one _).symm
          _ ≤ (img.width : ℚ) * ((mw : ℚ) / (img.width : ℚ)) :=
            mul_le_mul_of_nonneg_left h1 (le_of_lt hW0)
          _ = (mw : ℚ) := by field_simp
      have h1H : (img.height : ℚ) ≤ (mh : ℚ) := by
        have h1 : (1 : ℚ) ≤ (mh : ℚ) / (img.height : ℚ) := le_trans hge hsH
        calc (img.height : ℚ) = (img.height : ℚ) * 1 := (mul_one _).symm
          _ ≤ (img.height : ℚ) * ((mh : ℚ) / (img.height : ℚ)) :=
            mul_le_mul_of_nonneg_left h1 (le_of_lt hH0)
          _ = (mh : ℚ) := by field_simp
      have hWn : img.width ≤ mw := by exact_mod_cast h1W
      have hHn : img.height ≤ mh := by exact_mod_cast h1H
      exact ⟨hWn, hHn, le_refl _, le_refl _,
        fun hltc => absurd hltc hlt, fun _ => rfl⟩

/-- Witness for C2: a 4000 by 3000 image under a 1920 by 1920 bound is
scaled by 12/25 to exactly 1920 by 1440. -/
theorem resize_bounded_witness :
    (resizeStep demoCfg demoImg).width = 1920 ∧
    (resizeStep demoCfg demoImg).height = 1440 ∧
    (resizeStep demoCfg demoImg).width ≤ 1920 ∧
    (resizeStep demoCfg demoImg).height ≤ 1920 := by
  have h := resize_bounded demoCfg demoImg (by norm_num [demoImg])
    (by norm_num [demoImg])
  have hs : ((12 : ℚ)/25) =
      min (min ((1920 : ℚ) / (demoImg.width : ℚ))
        ((1920 : ℚ) / (demoImg.height : ℚ))) 1 := by
    norm_num [demoImg, min_def]
  have h2 := h.2 1920 1920 rfl rfl ((12 : ℚ)/25) hs
  have hf := h2.2.2.2.2.1 (by norm_num)
  refine ⟨?_, ?_, h2.1, h2.2.1⟩
  · rw [hf.1]
    norm_num [demoImg]
  · rw [hf.2]
    norm_num [demoImg]
